import Mathlib

/-!
Verification of the Annotation Region Engine of `pdf2article`
(`src/frontend/src/app/modules/annotator-module/annotator.service.ts`),
as a shallow embedding: the service's mutable fields become the record
`ServiceState`, each method becomes a pure function from state (and
arguments) to state (and result).  Coordinates and page indices are
JavaScript numbers used only with `+`, `<=`, `>=`, `===`, so they are
modelled as `Int`.  Optional fields (`pairKey?`, `tag?`) become `Option`;
JavaScript strict equality on possibly-`undefined` values corresponds to
equality of the `Option` values (`undefined === undefined` is `true`).
`Object.assign({}, a)` is the field-by-field copy `copyAnn`.
-/

namespace Annotator

/-- Source `enum AnnotationType` — the enum members are string constants; the
service compares annotation tags against them with `===`/`!==`, so they
are modelled as the underlying strings. -/
def articleTag : String := "article"

def authorTag : String := "author"

def titleTag : String := "title"

def contentTag : String := "content"

/-- Source `interface Annotation` from the source: geometry is an origin
`(x, y)` plus signed deltas `(xEnd, yEnd)`, a page index, and optional
`pairKey` and `tag`. -/
structure Annotation where
  x : Int
  y : Int
  xEnd : Int
  yEnd : Int
  page : Int
  pairKey : Option Int := none
  tag : Option String := none
  deriving DecidableEq, Repr, Inhabited

/-- Source `interface IPageDimensions`. -/
structure IPageDimensions where
  width : Int
  height : Int
  deriving DecidableEq, Repr

/-- Source `interface IPageProperties`. -/
structure IPageProperties where
  pageIndex : Int
  pageDimensions : IPageDimensions
  deriving DecidableEq, Repr

/-- Source `enum WorkMode`. -/
inductive WorkMode where
  | create
  | delete
  deriving DecidableEq, Repr

/-- The mutable fields of `AnnotatorService` that belong to the region
engine (the rendered-page array `pages` and the `http` client are
excluded rendering/transport glue).  `workMode` is the current value of
the `BehaviorSubject`; `pdf` is the opaque document handle; `none` for
`annotationType` models both the initially-undefined field and the
`null` written by `clear`. -/
structure ServiceState where
  pdf : Option Unit
  annotations : List Annotation
  annotationType : Option String
  articleID : Int
  pagesProperties : List IPageProperties
  workMode : WorkMode
  deriving DecidableEq, Repr

/-- The field initializers of `AnnotatorService` (a fresh service). -/
def initState : ServiceState :=
  { pdf := none
    annotations := []
    annotationType := none
    articleID := 0
    pagesProperties := []
    workMode := .create }

/-- The copy `Object.assign({}, annotation)` — a fresh object with the same
fields. -/
def copyAnn (a : Annotation) : Annotation :=
  { x := a.x, y := a.y, xEnd := a.xEnd, yEnd := a.yEnd
    page := a.page, pairKey := a.pairKey, tag := a.tag }

/-- Method `clear()` (lines 61–68). -/
def clear (_s : ServiceState) : ServiceState :=
  { pdf := none
    annotations := []
    annotationType := none
    articleID := 0
    pagesProperties := []
    workMode := .create }

/-- Method `setAnnotation(annotation)` (lines 76–78): push a copy. -/
def setAnnotation (s : ServiceState) (a : Annotation) : ServiceState :=
  { s with annotations := s.annotations ++ [copyAnn a] }

/-- Method `setServerAnnotations(annotations)` (lines 70–74): feed each item
through `setAnnotation`. -/
def setServerAnnotations (s : ServiceState) (l : List Annotation) : ServiceState :=
  l.foldl setAnnotation s

/-- Method `getAnnotations(page)` (lines 80–84): filter by page, return
copies. -/
def getAnnotations (s : ServiceState) (page : Int) : List Annotation :=
  (s.annotations.filter (fun a => a.page == page)).map copyAnn

/-- Method `getAnnotationType()` (lines 86–88). -/
def getAnnotationType (s : ServiceState) : Option String :=
  s.annotationType

/-- Method `setAnnotationType(type)` (lines 90–93). -/
def setAnnotationType (s : ServiceState) (t : String) : ServiceState :=
  { s with annotationType := some t, workMode := .create }

/-- Method `setPagesProperties(pageProperties)` (lines 95–99): push only when
`findIndex` by `pageIndex` returns `-1`. -/
def setPagesProperties (s : ServiceState) (pp : IPageProperties) : ServiceState :=
  match s.pagesProperties.findIdx? (fun page => page.pageIndex == pp.pageIndex) with
  | none => { s with pagesProperties := s.pagesProperties ++ [pp] }
  | some _ => s

/-- Method `flushAnnotations()` (lines 104–106). -/
def flushAnnotations (s : ServiceState) : ServiceState :=
  { s with annotations := [] }

/-- The `{ payload, pagesProperties }` object posted by
`saveMetadata` (lines 116–122). -/
structure SaveEnvelope where
  payload : List Annotation
  pagesProperties : List IPageProperties
  deriving DecidableEq, Repr

/-- Method `saveMetadata(id)` (lines 116–122): the serialization envelope it
transmits (the HTTP post itself is external transport). -/
def saveMetadata (s : ServiceState) : SaveEnvelope :=
  { payload := s.annotations.filter (fun a => a.tag != some articleTag)
    pagesProperties := s.pagesProperties }

/-- Method `hasAnnotation(x, y, page, annotation)` (lines 190–196), the spatial
hit test, exactly as written in the source: the x-interval is
`[annotation.x, annotation.xEnd + annotation.x]` and the y-interval is
`[annotation.y, annotation.yEnd + annotation.y]`, with no
normalization. -/
def hasAnnotation (x y page : Int) (a : Annotation) : Bool :=
  decide (x ≥ a.x) && decide (x ≤ a.xEnd + a.x) &&
  decide (y ≥ a.y) && decide (y ≤ a.yEnd + a.y) &&
  (page == a.page)

/-- Method `getAnnotationFromCoords(x, y, page)` (lines 129–131). -/
def getAnnotationFromCoords (s : ServiceState) (x y page : Int) : List Annotation :=
  s.annotations.filter ( hasAnnotation x y page)

/-- Method `getArticle(x, y, page)` (lines 124–127). -/
def getArticle (s : ServiceState) (x y page : Int) : List Annotation :=
  (getAnnotationFromCoords s x y page).filter (fun a => a.tag == some articleTag)

/-- Method `removeArticle(article)` (lines 198–200): keep exactly the
annotations whose `pairKey` differs from the article's (`!==` on two
possibly-`undefined` numbers is inequality of the `Option` values). -/
def removeArticle (s : ServiceState) (article : Annotation) : ServiceState :=
  { s with annotations := s.annotations.filter (fun a => a.pairKey != article.pairKey) }

/-- Method `remove(x, y, page)` (lines 133–142): find the first Article among
the point matches; cascade through `removeArticle` when one exists,
otherwise drop exactly the point matches. -/
def remove (s : ServiceState) (x y page : Int) : ServiceState :=
  let annotations := getAnnotationFromCoords s x y page
  match annotations.find? (fun a => a.tag == some articleTag) with
  | some article => removeArticle s article
  | none =>
      { s with annotations := s.annotations.filter (fun a => ! hasAnnotation x y page a) }

/-- Method `getNextArticleID()` (lines 144–147): pre-increment, then return. -/
def getNextArticleID (s : ServiceState) : Int × ServiceState :=
  (s.articleID + 1, { s with articleID := s.articleID + 1 })

/-- Method `setWorkMode(mode)` (lines 149–151). -/
def setWorkMode (s : ServiceState) (m : WorkMode) : ServiceState :=
  { s with workMode := m }

/-- Method `getWorkMode()` (lines 153–155): the `BehaviorSubject` replays its
current value to any subscriber, so the observable's immediate emission
is the current mode. -/
def getWorkMode (s : ServiceState) : WorkMode :=
  s.workMode

/-!
Object-identity refinement of the store, for the copy-isolation
property: JavaScript annotations are heap objects and the service's
array holds references, so "mutating a returned region" is meaningful.
`Heap` is the list of allocated cells and a reference is a cell index;
`Object.assign({}, a)` allocates a fresh cell holding the same fields.
`setAnnotationH` / `getAnnotationsH` are lines 76–78 / 80–84 replayed
over references: `push(Object.assign({}, annotation))` allocates one
cell and appends its index; `filter(...).map(Object.assign({}, ·))`
allocates one fresh cell per match and returns the fresh indices. -/

structure HeapState where
  heap : List Annotation
  store : List Nat
  deriving Repr

/-- Dereference a list of cell indices. -/
def readVals (heap : List Annotation) (idxs : List Nat) : List Annotation :=
  idxs.map (fun i => heap.getD i default)

/-- The annotation values the store's references currently point at. -/
def storeVals (s : HeapState) : List Annotation :=
  readVals s.heap s.store

/-- Method `setAnnotation` over references: allocate a copy, push its index. -/
def setAnnotationH (s : HeapState) (a : Annotation) : HeapState :=
  { heap := s.heap ++ [copyAnn a], store := s.store ++ [s.heap.length] }

/-- Method `getAnnotations` over references: filter the pointed-at values by
page, allocate a fresh copy of each match, return the new heap and the
fresh indices (the caller's array). -/
def getAnnotationsH (s : HeapState) (page : Int) : HeapState × List Nat :=
  let vals := (storeVals s).filter (fun a => a.page == page)
  ({ heap := s.heap ++ vals.map copyAnn, store := s.store },
   (List.range vals.length).map (fun i => i + s.heap.length))

/-- Well-formed heap state: every stored reference is allocated. -/
def heapWF (s : HeapState) : Prop :=
  ∀ i ∈ s.store, i < s.heap.length

/-- The registry invariant of §3: at most one entry per `pageIndex`. -/
def registryOk (l : List IPageProperties) : Prop :=
  l.Pairwise (fun p q => p.pageIndex ≠ q.pageIndex)

/-- The stream of keys produced by `n` successive `getNextArticleID()`
calls, threading the state. -/
def iterKeys : ServiceState → Nat → List Int
  | _, 0 => []
  | s, n + 1 =>
      let r := getNextArticleID s
      r.1 :: iterKeys r.2 n

/-! Concrete states used to instantiate the theorems below. -/

/-- A region drawn left-to-right: origin `(5,5)`, extent `(5,5)`. -/
def regPos : Annotation := { x := 5, y := 5, xEnd := 5, yEnd := 5, page := 0 }

/-- The same rectangle drawn right-to-left: origin `(10,10)`, extent
`(-5,-5)`. -/
def regNeg : Annotation := { x := 10, y := 10, xEnd := -5, yEnd := -5, page := 0 }

/-- An Article container on page 0 with pairing key 1. -/
def art2 : Annotation :=
  { x := 50, y := 50, xEnd := 200, yEnd := 100, page := 0, pairKey := some 1
    tag := some articleTag }

/-- A Title child of `art2`, also key 1, inside the container. -/
def title2 : Annotation :=
  { x := 60, y := 60, xEnd := 50, yEnd := 20, page := 0, pairKey := some 1
    tag := some titleTag }

/-- An unrelated Content region on page 1 with key 2. -/
def other2 : Annotation :=
  { x := 0, y := 0, xEnd := 30, yEnd := 30, page := 1, pairKey := some 2
    tag := some contentTag }

/-- Store holding `art2`, `title2`, `other2`. -/
def ex2St : ServiceState := { initState with annotations := [art2, title2, other2] }

/-- An Article whose `pairKey` was never set. -/
def art3 : Annotation :=
  { x := 0, y := 0, xEnd := 10, yEnd := 10, page := 0, tag := some articleTag }

/-- A keyless labeled region on a far-away page, not touching `art3`. -/
def lbl3 : Annotation :=
  { x := 500, y := 500, xEnd := 10, yEnd := 10, page := 5, tag := some titleTag }

/-- A keyed region on page 5 that must survive. -/
def keep3 : Annotation :=
  { x := 500, y := 500, xEnd := 10, yEnd := 10, page := 5, pairKey := some 3
    tag := some contentTag }

/-- Store holding `art3`, `lbl3`, `keep3`. -/
def ex3St : ServiceState := { initState with annotations := [art3, lbl3, keep3] }

/-- First-registered properties of page 3. -/
def pp6a : IPageProperties := { pageIndex := 3, pageDimensions := { width := 600, height := 800 } }

/-- Conflicting later registration for page 3. -/
def pp6b : IPageProperties := { pageIndex := 3, pageDimensions := { width := 100, height := 200 } }

/-- State whose registry already holds page 3. -/
def ex6St : ServiceState := { initState with pagesProperties := [pp6a] }

/-- A region on page 0, used as the single pre-existing heap cell. -/
def ann9 : Annotation := { x := 1, y := 2, xEnd := 3, yEnd := 4, page := 0 }

/-- Since `Object.assign({}, a)` copies every field, so the copy is
field-equal to the original. -/
theorem copyAnn_eq (a : Annotation) : copyAnn a = a := rfl

/-- C1 (counterexample): the claim says a region with origin `(10,10)`
and extent `(-5,-5)` matches exactly the same points as one with origin
`(5,5)` and extent `(5,5)`; at the point `(7,7)` on page 0 the latter
matches and the former does not, so the claim is false. -/
theorem hasAnnotation_neg_extent_cex :
    hasAnnotation 7 7 0 regPos = true ∧ hasAnnotation 7 7 0 regNeg = false := by
  decide

/-- C1 (amended): `hasAnnotation x y page a` is true iff
`page = a.page`, `a.x ≤ x ≤ a.xEnd + a.x` and `a.y ≤ y ≤ a.yEnd + a.y`,
taking the interval endpoints literally with no normalization; when an
extent component is negative the interval is empty, so the region
matches no point at all. -/
theorem hasAnnotation_iff (x y page : Int) (a : Annotation) :
    hasAnnotation x y page a = true ↔
      (a.x ≤ x ∧ x ≤ a.xEnd + a.x ∧ a.y ≤ y ∧ y ≤ a.yEnd + a.y ∧ page = a.page) := by
  simp [ hasAnnotation, and_assoc, ge_iff_le]

/-- C4: `flushAnnotations` empties the region list — `getAnnotations`
returns `[]` for every page afterwards — and leaves the Page Registry,
the pairing-key counter, the annotation type, the work mode and the
document handle unchanged. -/
theorem flushAnnotations_spec (s : ServiceState) (p : Int) :
    getAnnotations (flushAnnotations s) p = [] ∧
    (flushAnnotations s).annotations = [] ∧
    (flushAnnotations s).pagesProperties = s.pagesProperties ∧
    (flushAnnotations s).articleID = s.articleID ∧
    (flushAnnotations s).annotationType = s.annotationType ∧
    (flushAnnotations s).workMode = s.workMode ∧
    (flushAnnotations s).pdf = s.pdf := by
  simp [flushAnnotations, getAnnotations]

/-- C5: `clear` returns the engine to the fresh-service state: region
list empty, pairing-key counter back to 0, annotation type unset, work
mode `Create`, Page Registry empty, document handle dropped. -/
theorem clear_spec (s : ServiceState) :
    clear s = initState ∧
    (clear s).annotations = [] ∧
    (clear s).articleID = 0 ∧
    (clear s).annotationType = none ∧
    (clear s).workMode = .create ∧
    (clear s).pagesProperties = [] ∧
    (clear s).pdf = none := by
  exact ⟨rfl, rfl, rfl, rfl, rfl, rfl, rfl⟩

/-- C8: the work mode starts as `Create`; after `setWorkMode m` any
subscriber observes `m` (in particular `Delete` after
`setWorkMode .delete`, not `Create` unconditionally); and after any
`setAnnotationType t` the observed mode is `Create`, whatever the prior
mode was. -/
theorem workMode_spec :
    getWorkMode initState = WorkMode.create ∧
    (∀ (s : ServiceState) (m : WorkMode), getWorkMode (setWorkMode s m) = m) ∧
    (∀ s : ServiceState, getWorkMode (setWorkMode s .delete) = .delete) ∧
    (∀ (s : ServiceState) (t : String), getWorkMode (setAnnotationType s t) = .create) :=
  ⟨rfl, fun _ _ => rfl, fun _ => rfl, fun _ _ => rfl⟩

/-- C10: the serialization envelope is `{ payload, pagesProperties }`
where `payload` holds exactly the stored regions whose tag is not
`Article` — Article-tagged regions excluded, every other region
(including tagless ones) included — and `pagesProperties` is the full
Page Registry. -/
theorem saveMetadata_spec (s : ServiceState) :
    (saveMetadata s).payload = s.annotations.filter (fun a => a.tag != some articleTag) ∧
    (∀ a : Annotation,
      a ∈ (saveMetadata s).payload ↔ a ∈ s.annotations ∧ a.tag ≠ some articleTag) ∧
    (saveMetadata s).pagesProperties = s.pagesProperties := by
  refine ⟨rfl, ?_, rfl⟩
  intro a
  simp [saveMetadata, List.mem_filter]

/-- C2: if some region matching the point is tagged Article, `remove`
deletes exactly the regions sharing that Article's `pairKey` (on every
page, matching or not); if no matching region is an Article, it deletes
exactly the regions matching the point. -/
theorem remove_cascade_or_spatial (s : ServiceState) (x y page : Int) :
    ((∃ a ∈ getAnnotationFromCoords s x y page, a.tag = some articleTag) →
      ∃ a ∈ getAnnotationFromCoords s x y page, a.tag = some articleTag ∧
        (remove s x y page).annotations =
          s.annotations.filter (fun b => b.pairKey != a.pairKey)) ∧
    ((∀ a ∈ getAnnotationFromCoords s x y page, a.tag ≠ some articleTag) →
      (remove s x y page).annotations =
        s.annotations.filter (fun b => ! hasAnnotation x y page b)) := by
  constructor
  · intro h
    obtain ⟨a, ha, hart⟩ := h
    have hsome : ((getAnnotationFromCoords s x y page).find?
        (fun b => b.tag == some articleTag)).isSome := by
      rw [List.find?_isSome]
      exact ⟨a, ha, by simp [hart]⟩
    obtain ⟨b, hb⟩ := Option.isSome_iff_exists.mp hsome
    refine ⟨b, List.mem_of_find?_eq_some hb, ?_, ?_⟩
    · simpa using List.find?_some hb
    · simp only [remove, hb, removeArticle]
  · intro h
    have hnone : (getAnnotationFromCoords s x y page).find?
        (fun b => b.tag == some articleTag) = none := by
      rw [List.find?_eq_none]
      intro b hb
      simp [h b hb]
    simp only [remove, hnone]

/-- C2 witness: in a store holding an Article (key 1), its Title
child (key 1) and an unrelated Content region (key 2, page 1), deleting
at `(70,70)` on page 0 finds the Article and keeps exactly the regions
whose key differs from 1. -/
theorem remove_cascade_or_spatial_witness :
    (∃ a ∈ getAnnotationFromCoords ex2St 70 70 0, a.tag = some articleTag) ∧
    (∃ a ∈ getAnnotationFromCoords ex2St 70 70 0, a.tag = some articleTag ∧
      (remove ex2St 70 70 0).annotations =
        ex2St.annotations.filter (fun b => b.pairKey != a.pairKey)) :=
  ⟨by decide, (remove_cascade_or_spatial ex2St 70 70 0).1 (by decide)⟩

/-- C3: if the Article found under the point has no `pairKey`, the
cascade keeps exactly the regions whose `pairKey` is set
(`undefined !== undefined` is false), so every keyless region in the
store is deleted — on every page, spatially matching or not. -/
theorem remove_unset_pairKey (s : ServiceState) (x y page : Int) (a : Annotation)
    (hfind : (getAnnotationFromCoords s x y page).find?
      (fun b => b.tag == some articleTag) = some a)
    (hkey : a.pairKey = none) :
    (remove s x y page).annotations = s.annotations.filter (fun b => b.pairKey != none) ∧
    ∀ b ∈ (remove s x y page).annotations, b.pairKey ≠ none := by
  have h1 : (remove s x y page).annotations
      = s.annotations.filter (fun b => b.pairKey != none) := by
    simp only [remove, hfind, removeArticle, hkey]
  refine ⟨h1, ?_⟩
  intro b hb
  rw [h1] at hb
  simpa using (List.mem_filter.mp hb).2

/-- C3 witness: the store holds a keyless Article on page 0, a keyless
Title on page 5 far from the point, and a keyed Content on page 5;
deleting at `(5,5)` on page 0 finds the keyless Article and keeps
exactly the keyed region, deleting the non-matching keyless one too. -/
theorem remove_unset_pairKey_witness :
    ((getAnnotationFromCoords ex3St 5 5 0).find?
        (fun b => b.tag == some articleTag) = some art3 ∧
      art3.pairKey = none) ∧
    (remove ex3St 5 5 0).annotations = ex3St.annotations.filter (fun b => b.pairKey != none) :=
  ⟨⟨by decide, rfl⟩, (remove_unset_pairKey ex3St 5 5 0 art3 (by decide) rfl).1⟩

/-- Registering an index that is already present leaves the whole
state unchanged. -/
theorem register_noop (s : ServiceState) (pp : IPageProperties)
    (h : ∃ q ∈ s.pagesProperties, q.pageIndex = pp.pageIndex) :
    setPagesProperties s pp = s := by
  obtain ⟨q, hq, hidx⟩ := h
  unfold setPagesProperties
  cases hIdx : s.pagesProperties.findIdx? (fun page => page.pageIndex == pp.pageIndex) with
  | some i => rfl
  | none =>
      exfalso
      have := List.findIdx?_eq_none_iff.mp hIdx q hq
      simp [hidx] at this

/-- After registering `pp`, some entry carries its index. -/
theorem register_index_mem (s : ServiceState) (pp : IPageProperties) :
    ∃ q ∈ (setPagesProperties s pp).pagesProperties, q.pageIndex = pp.pageIndex := by
  unfold setPagesProperties
  cases hIdx : s.pagesProperties.findIdx? (fun page => page.pageIndex == pp.pageIndex) with
  | none => exact ⟨pp, List.mem_append_right _ (List.mem_singleton_self _), rfl⟩
  | some i =>
      obtain ⟨h, hp, -⟩ := List.findIdx?_eq_some_iff_getElem.mp hIdx
      exact ⟨s.pagesProperties[i], List.getElem_mem h, by simpa using hp⟩

/-- C6: the registry's at-most-one-entry-per-`pageIndex` invariant is
preserved by `setPagesProperties` (and trivially by every other
operation, which either leaves the registry unchanged or empties it);
registering an already-present index is a no-op — so a second
registration with different dimensions keeps the first — and
registering a fresh index appends it. -/
theorem setPagesProperties_spec (s : ServiceState) (pp : IPageProperties) :
    (registryOk s.pagesProperties → registryOk (setPagesProperties s pp).pagesProperties) ∧
    ((∃ q ∈ s.pagesProperties, q.pageIndex = pp.pageIndex) → setPagesProperties s pp = s) ∧
    ((∀ q ∈ s.pagesProperties, q.pageIndex ≠ pp.pageIndex) →
      (setPagesProperties s pp).pagesProperties = s.pagesProperties ++ [pp]) ∧
    (∀ d d' : IPageDimensions,
      setPagesProperties (setPagesProperties s ⟨pp.pageIndex, d⟩) ⟨pp.pageIndex, d'⟩ =
        setPagesProperties s ⟨pp.pageIndex, d⟩) ∧
    registryOk (clear s).pagesProperties ∧
    (∀ a : Annotation, ( setAnnotation s a).pagesProperties = s.pagesProperties) ∧
    (∀ x y p : Int, (remove s x y p).pagesProperties = s.pagesProperties) ∧
    (flushAnnotations s).pagesProperties = s.pagesProperties ∧
    (∀ t : String, (setAnnotationType s t).pagesProperties = s.pagesProperties) ∧
    (∀ m : WorkMode, (setWorkMode s m).pagesProperties = s.pagesProperties) ∧
    (getNextArticleID s).2.pagesProperties = s.pagesProperties := by
  have hfilterNone : ∀ (l : List IPageProperties) (k : Int),
      (∀ q ∈ l, q.pageIndex ≠ k) →
        l.findIdx? (fun page => page.pageIndex == k) = none := by
    intro l k h
    rw [List.findIdx?_eq_none_iff]
    intro q hq
    simp [h q hq]
  refine ⟨?_, ?_, ?_, ?_, List.Pairwise.nil, fun _ => rfl, ?_, rfl, fun _ => rfl,
    fun _ => rfl, rfl⟩
  · intro hok
    unfold setPagesProperties
    cases hIdx : s.pagesProperties.findIdx? (fun page => page.pageIndex == pp.pageIndex) with
    | some i => exact hok
    | none =>
        have hne : ∀ q ∈ s.pagesProperties, q.pageIndex ≠ pp.pageIndex := by
          intro q hq
          have := List.findIdx?_eq_none_iff.mp hIdx q hq
          simpa using this
        refine List.pairwise_append.mpr ⟨hok, List.pairwise_singleton _ _, ?_⟩
        intro a ha b hb
        rw [List.mem_singleton.mp hb]
        exact hne a ha
  · exact register_noop s pp
  · intro h
    unfold setPagesProperties
    rw [hfilterNone s.pagesProperties pp.pageIndex h]
  · intro d d'
    exact register_noop _ _ (register_index_mem s ⟨pp.pageIndex, d⟩)
  · intro x y p
    simp only [remove]
    cases hfind : (getAnnotationFromCoords s x y p).find? (fun a => a.tag == some articleTag) with
    | some article => rfl
    | none => rfl

/-- C6 witness: with page 3 already registered at 600×800, registering
page 3 again at 100×200 is a no-op. -/
theorem setPagesProperties_spec_witness :
    (∃ q ∈ ex6St.pagesProperties, q.pageIndex = pp6b.pageIndex) ∧
    setPagesProperties ex6St pp6b = ex6St :=
  ⟨by decide, (setPagesProperties_spec ex6St pp6b).2.1 (by decide)⟩

/-- Running `n` successive `getNextArticleID` calls from state `s` returns
`s.articleID + 1, …, s.articleID + n`. -/
theorem iterKeys_eq (s : ServiceState) (n : Nat) :
    iterKeys s n = (List.range n).map (fun i : Nat => s.articleID + 1 + (i : Int)) := by
  induction n generalizing s with
  | zero => simp [iterKeys]
  | succ n ih =>
      rw [List.range_succ_eq_map, List.map_cons, List.map_map]
      simp only [iterKeys, getNextArticleID]
      congr 1
      · simp
      · rw [ih]
        refine List.map_congr_left ?_
        intro i _
        simp only [Function.comp_apply]
        push_cast
        ring

/-- C7: `n` successive `getNextArticleID` calls return pairwise
distinct, strictly increasing integers (explicitly, the arithmetic
sequence starting at `articleID + 1`); `clear` puts the counter back at
the initial value 0, so the next call returns the same key as the very
first call of a fresh session. -/
theorem nextPairKey_spec (s : ServiceState) (n : Nat) :
    iterKeys s n = (List.range n).map (fun i : Nat => s.articleID + 1 + (i : Int)) ∧
    (iterKeys s n).Pairwise (· < ·) ∧
    (iterKeys s n).Nodup ∧
    (clear s).articleID = initState.articleID ∧
    (getNextArticleID (clear s)).1 = (getNextArticleID initState).1 := by
  have hpw : (iterKeys s n).Pairwise (· < ·) := by
    rw [iterKeys_eq]
    refine List.Pairwise.map _ ?_ (List.pairwise_lt_range n)
    intro i j h
    have : (i : Int) < (j : Int) := by exact_mod_cast h
    linarith
  exact ⟨iterKeys_eq s n, hpw, hpw.imp ne_of_lt, rfl, rfl⟩

/-- Freshly allocated cells appended to the heap read back as the
values written. -/
theorem readVals_fresh (heap l : List Annotation) :
    readVals (heap ++ l) ((List.range l.length).map (fun i => i + heap.length)) = l := by
  apply List.ext_getElem
  · simp [readVals]
  · intro k h1 h2
    simp only [readVals, List.getElem_map, List.getElem_range]
    rw [List.getD_append_right heap l default (k + heap.length) (by omega)]
    simp only [Nat.add_sub_cancel]
    exact List.getD_eq_getElem l default h2

/-- Reading through references below the old heap length is unaffected
by appending cells. -/
theorem readVals_append (heap l : List Annotation) (idxs : List Nat)
    (wf : ∀ i ∈ idxs, i < heap.length) :
    readVals (heap ++ l) idxs = readVals heap idxs := by
  unfold readVals
  refine List.map_congr_left ?_
  intro i hi
  exact List.getD_append heap l default i (wf i hi)

/-- Writing a cell that no reference in `idxs` points at changes none
of the values read through `idxs`. -/
theorem readVals_set (heap : List Annotation) (idxs : List Nat) (j : Nat) (v : Annotation)
    (h : ∀ i ∈ idxs, j ≠ i) :
    readVals (heap.set j v) idxs = readVals heap idxs := by
  unfold readVals
  refine List.map_congr_left ?_
  intro i hi
  simp only [List.getD, List.get?_eq_getElem?, List.getElem?_set_ne (h i hi)]

/-- Copies survive in `map copyAnn` unchanged. -/
theorem map_copyAnn (l : List Annotation) : l.map copyAnn = l :=
  (List.map_congr_left fun a _ => copyAnn_eq a).trans (List.map_id l)

/-- Method `getAnnotations` over references: the values read through the
returned (freshly allocated) references are exactly the stored values
whose `page` matches, in insertion order. -/
theorem getAnnotationsH_vals (s : HeapState) (p : Int) :
    readVals (getAnnotationsH s p).1.heap (getAnnotationsH s p).2 =
      (storeVals s).filter (fun a => a.page == p) := by
  unfold getAnnotationsH
  simp only [map_copyAnn]
  exact readVals_fresh s.heap ((storeVals s).filter (fun a => a.page == p))

/-- C9: in the object-identity model of the store (heap of cells,
store of references, `Object.assign` allocating a fresh cell): adding
`r` appends a value field-equal to `r`, so `getAnnotations r.page`
afterwards contains `r`; `getAnnotations p` reads back exactly the
stored values with page `p`, in insertion order; and the returned
references are fresh, so overwriting any of them with any value leaves
every value reachable from the store unchanged (copy isolation). -/
theorem store_copy_spec (heap : List Annotation) (store : List Nat) (r : Annotation) (p : Int)
    (wf : heapWF ⟨heap, store⟩) :
    storeVals (setAnnotationH ⟨heap, store⟩ r) = storeVals ⟨heap, store⟩ ++ [r] ∧
    r ∈ readVals (getAnnotationsH (setAnnotationH ⟨heap, store⟩ r) r.page).1.heap
          (getAnnotationsH (setAnnotationH ⟨heap, store⟩ r) r.page).2 ∧
    readVals (getAnnotationsH ⟨heap, store⟩ p).1.heap (getAnnotationsH ⟨heap, store⟩ p).2 =
      (storeVals ⟨heap, store⟩).filter (fun a => a.page == p) ∧
    (∀ j ∈ (getAnnotationsH ⟨heap, store⟩ p).2, ∀ v : Annotation,
      readVals ((getAnnotationsH ⟨heap, store⟩ p).1.heap.set j v)
          (getAnnotationsH ⟨heap, store⟩ p).1.store =
        storeVals (getAnnotationsH ⟨heap, store⟩ p).1) := by
  have hadd : storeVals (setAnnotationH ⟨heap, store⟩ r) = storeVals ⟨heap, store⟩ ++ [r] := by
    unfold setAnnotationH storeVals readVals
    simp only [List.map_append, List.map_cons, List.map_nil]
    congr 1
    · exact List.map_congr_left fun i hi =>
        List.getD_append heap [copyAnn r] default i (wf i hi)
    · rw [List.getD_append_right heap [copyAnn r] default heap.length le_rfl]
      simp [copyAnn_eq]
  refine ⟨hadd, ?_, getAnnotationsH_vals ⟨heap, store⟩ p, ?_⟩
  · rw [getAnnotationsH_vals (setAnnotationH ⟨heap, store⟩ r) r.page, hadd]
    refine List.mem_filter.mpr ⟨List.mem_append_right _ (List.mem_singleton_self r), ?_⟩
    simp
  · intro j hj v
    have hj' : heap.length ≤ j := by
      unfold getAnnotationsH at hj
      simp only [List.mem_map, List.mem_range] at hj
      obtain ⟨i, hi, rfl⟩ := hj
      omega
    exact readVals_set _ store j v fun k hk => by
      have hk' : k < heap.length := wf k hk
      omega

/-- C9 witness: a heap holding one cell and a store pointing at it is
well-formed, and reading page 0 returns exactly that value. -/
theorem store_copy_spec_witness :
    heapWF ⟨[ann9], [0]⟩ ∧
    readVals (getAnnotationsH ⟨[ann9], [0]⟩ 0).1.heap (getAnnotationsH ⟨[ann9], [0]⟩ 0).2 =
      (storeVals ⟨[ann9], [0]⟩).filter (fun a => a.page == 0) :=
  ⟨by simp [heapWF], (store_copy_spec [ann9] [0] ann9 0 (by simp [heapWF])).2.2.1⟩

end Annotator
